import Mathlib

/-!
Verification of the graph utilities in `e3nn_jax/_graph_util.py`:
`_distinct_but_small`, `index_add` and `radius_graph`.

Arrays are modelled as Lean lists; feature rows live in an arbitrary additive
commutative monoid `M` (this captures an arbitrary trailing shape).  The JAX
array primitives used by the source are modelled explicitly:

* gather (`a[idx]`) wraps a negative index once by adding the axis length and
  clamps to the valid range (`jnpGet`);
* scatter-add (`a.at[idx].add(v)`) wraps a negative index once and silently
  drops updates whose index is then still out of bounds (`effIdx`,
  `applyUpdate`);
* `jnp.where(mask, size=s, fill_value=-1)` lists the true positions of the
  mask in row-major order, truncated or right-padded with `-1` to length `s`
  (`truePairs`, `jnpWhere`);
* `jnp.unique(x, size=n)` returns the ascending list of distinct values,
  right-padded with its minimum (its first element) to length `n`
  (`jnpUniqueSized`).
-/

namespace E3nnGraphUtil

/-- JAX gather index normalisation: a negative index is shifted once by the
axis length, then the result is clamped into `[0, n)`. -/
def wrapClamp (n : ℕ) (i : ℤ) : ℕ :=
  (max 0 (min ((n : ℤ) - 1) (if i < 0 then i + n else i))).toNat

/-- JAX gather `l[i]` on a 1-D array, with negative-index wrap and clamping. -/
def jnpGet {α : Type} [Zero α] (l : List α) (i : ℤ) : α :=
  l.getD (wrapClamp l.length i) 0

/-- JAX scatter index normalisation: a negative index is shifted once by the
axis length; an index that is then still out of `[0, d)` is dropped. -/
def effIdx (d : ℕ) (i : ℤ) : Option ℕ :=
  if 0 ≤ (if i < 0 then i + d else i) ∧ (if i < 0 then i + d else i) < d then
    some (if i < 0 then i + d else i).toNat
  else
    none

/-- One scatter-add update `acc.at[i].add(v)`: add `v` into bucket `effIdx d i`,
drop the update when the index is out of bounds. -/
def applyUpdate {M : Type} [AddCommMonoid M] (d : ℕ) (acc : List M) (i : ℤ) (v : M) : List M :=
  match effIdx d i with
  | none => acc
  | some b => acc.set b (acc.getD b 0 + v)

/-- The scatter-add `zeros(d, ...).at[indices].add(x)` of the source, applied
to the list of (index, row) pairs. -/
def scatterAdd {M : Type} [AddCommMonoid M] (d : ℕ) (pairs : List (ℤ × M)) : List M :=
  pairs.foldl (fun acc p => applyUpdate d acc p.1 p.2) (List.replicate d 0)

/-- The ascending list of the distinct values of `x`. -/
def sortedDistinct (x : List ℤ) : List ℤ :=
  x.toFinset.sort (· ≤ ·)

/-- The model of `jnp.unique(x, size=x.shape[0])`: the ascending distinct
values, right-padded with the minimum value (the head of the sorted list) to
the length of `x`. -/
def jnpUniqueSized (x : List ℤ) : List ℤ :=
  sortedDistinct x ++ List.replicate (x.length - (sortedDistinct x).length) ((sortedDistinct x).headD 0)

/-- The helper `_distinct_but_small`: each entry is replaced by the position of
its first occurrence in `jnp.unique(x, size=len(x))`
(`jnp.where(i == unique, size=1)[0][0]` is the index of the first match). -/
def distinct_but_small (x : List ℤ) : List ℤ :=
  x.map (fun v => ((jnpUniqueSized x).indexOf v : ℤ))

/-- Errors of `index_add`: the shape `assert` and the two `ValueError`s of the
source (named as in the spec). -/
inductive GraphError : Type where
  | ShapeMismatch : GraphError
  | InvalidConfiguration : GraphError
deriving DecidableEq, Repr

/-- Modelled from the spec: `e3nn.IrrepsArray` is not part of the source file;
the spec describes it as a feature array carrying a tag of
(group-label, multiplicity, sub-dimension) triples that must match the data and
be preserved through the scatter.  Only the tag and the rows matter here. -/
structure IrrepsArray (M : Type) : Type where
  irreps : List (ℕ × ℕ × ℕ)
  array : List M
deriving DecidableEq, Repr

/-- The input of `index_add`: a plain `jnp.ndarray` or an `e3nn.IrrepsArray`
(the source branches on `isinstance(input, e3nn.IrrepsArray)`). -/
inductive FeatureInput (M : Type) : Type where
  | plain : List M → FeatureInput M
  | labeled : IrrepsArray M → FeatureInput M
deriving DecidableEq, Repr

/-- Row count of the input (`input.shape[0]`). -/
def rowsOf {M : Type} : FeatureInput M → ℕ
  | .plain xs => xs.length
  | .labeled a => a.array.length

/-- The underlying numeric rows (`input.array` for an `IrrepsArray`,
`input` itself otherwise). -/
def dataOf {M : Type} : FeatureInput M → List M
  | .plain xs => xs
  | .labeled a => a.array

/-- The function `index_add` of the source.  Shape assertion first, then the
two configuration checks; in map-back mode `out_dim` becomes the row count and
the indices are densely relabelled; the scatter-add runs on the numeric data;
in map-back mode the buckets are gathered back (`output[indices]`); an
`IrrepsArray` input is re-wrapped with its own irreps. -/
def index_add {M : Type} [AddCommMonoid M] (indices : List ℤ) (input : FeatureInput M)
    (out_dim : Option ℕ) (map_back : Bool) : Except GraphError (FeatureInput M) :=
  if indices.length ≠ rowsOf input then
    .error .ShapeMismatch
  else if out_dim = none ∧ map_back = false then
    .error .InvalidConfiguration
  else if out_dim ≠ none ∧ map_back = true then
    .error .InvalidConfiguration
  else
    let d : ℕ := if out_dim = none ∧ map_back = true then indices.length else out_dim.getD 0
    let idxs : List ℤ := if out_dim = none ∧ map_back = true then distinct_but_small indices else indices
    let x : List M := dataOf input
    let out0 : List M := scatterAdd d (idxs.zip x)
    let out : List M := if map_back then idxs.map (fun i => jnpGet out0 i) else out0
    match input with
    | .plain _ => .ok (.plain out)
    | .labeled a => .ok (.labeled ⟨a.irreps, out⟩)

/-- Sum of the input rows whose index equals `v` — the reference value of one
output bucket of the scatter-add. -/
def groupSum {M : Type} [AddCommMonoid M] (idxs : List ℤ) (xs : List M) (v : ℤ) : M :=
  (((idxs.zip xs).filter (fun p => decide (p.1 = v))).map Prod.snd).sum

/-- Squared Euclidean distance of two rational 3-vectors. -/
def sqdist (p q : ℚ × ℚ × ℚ) : ℚ :=
  (p.1 - q.1) ^ 2 + (p.2.1 - q.2.1) ^ 2 + (p.2.2 - q.2.2) ^ 2

/-- Euclidean distance `jnp.linalg.norm(pos[i] - pos[j])` as a real number. -/
noncomputable def eucDist (p q : ℚ × ℚ × ℚ) : ℝ :=
  Real.sqrt ((sqdist p q : ℚ) : ℝ)

/-- The adjacency mask of `radius_graph`: `r < r_max` (and `r > 0` unless
`loop`), where `r = sqrt (sqdist)`.  Stated on the squared distance, which is
equivalent (see `distMask_iff_eucDist`) and keeps the mask computable. -/
def distMask (pos : List (ℚ × ℚ × ℚ)) (rmax : ℚ) (loop : Bool) (i j : ℕ) : Bool :=
  (decide (0 < rmax) && decide (sqdist (pos.getD i (0, 0, 0)) (pos.getD j (0, 0, 0)) < rmax ^ 2))
    && (loop || decide (0 < sqdist (pos.getD i (0, 0, 0)) (pos.getD j (0, 0, 0))))

/-- The true positions of an `n × n` boolean mask in row-major order, as
(row, column) pairs — the unsized `jnp.where(mask)`. -/
def truePairs (n : ℕ) (mask : ℕ → ℕ → Bool) : List (ℤ × ℤ) :=
  (List.range n).flatMap
    (fun i => ((List.range n).filter (fun j => mask i j)).map (fun (j : ℕ) => ((i : ℤ), (j : ℤ))))

/-- `jnp.where(mask, size=size, fill_value=-1)`: with a size, the row-major
true positions truncated to `size` and right-padded with `(-1, -1)`. -/
def jnpWhere (n : ℕ) (mask : ℕ → ℕ → Bool) (size : Option ℕ) : List (ℤ × ℤ) :=
  match size with
  | none => truePairs n mask
  | some s => (truePairs n mask).take s ++ List.replicate (s - (truePairs n mask).length) ((-1 : ℤ), (-1 : ℤ))

/-- The function `radius_graph` of the source.  The pair list stands for the
two returned index arrays `(src, dst)`; the optional batch filter keeps the
pairs whose endpoints carry equal batch ids (gathered with `jnpGet`, as
`batch[src] == batch[dst]` does). -/
def radius_graph (pos : List (ℚ × ℚ × ℚ)) (rmax : ℚ) (batch : Option (List ℤ))
    (size : Option ℕ) (loop : Bool) : List (ℤ × ℤ) :=
  let pairs := jnpWhere pos.length (distMask pos rmax loop) size
  match batch with
  | none => pairs
  | some b => pairs.filter (fun p => decide (jnpGet b p.1 = jnpGet b p.2))

/-! ### Facts about the dense relabelling -/

lemma mem_sortedDistinct {x : List ℤ} {v : ℤ} : v ∈ sortedDistinct x ↔ v ∈ x := by
  simp [sortedDistinct, Finset.mem_sort, List.mem_toFinset]

lemma sortedDistinct_nodup (x : List ℤ) : (sortedDistinct x).Nodup :=
  Finset.sort_nodup _ _

lemma sortedDistinct_sorted (x : List ℤ) : (sortedDistinct x).Sorted (· < ·) :=
  Finset.sort_sorted_lt _

lemma sortedDistinct_length_le (x : List ℤ) : (sortedDistinct x).length ≤ x.length := by
  rw [sortedDistinct, Finset.length_sort]
  exact List.toFinset_card_le x

lemma indexOf_jnpUniqueSized {x : List ℤ} {v : ℤ} (hv : v ∈ x) :
    (jnpUniqueSized x).indexOf v = (sortedDistinct x).indexOf v :=
  List.indexOf_append_of_mem (mem_sortedDistinct.mpr hv)

lemma indexOf_eq_countP_lt {l : List ℤ} (hs : l.Sorted (· < ·)) {v : ℤ} (hv : v ∈ l) :
    l.indexOf v = l.countP (fun w => decide (w < v)) := by
  induction l with
  | nil => cases hv
  | cons a t ih =>
    obtain ⟨hat, hst⟩ := List.sorted_cons.mp hs
    rcases List.mem_cons.mp hv with rfl | hvt
    · rw [List.indexOf_cons_self, List.countP_cons]
      have h0 : (t.countP fun w => decide (w < v)) = 0 :=
        List.countP_eq_zero.mpr (fun w hw => by simp [not_lt.mpr (le_of_lt (hat w hw))])
      simp [h0]
    · have hne : a ≠ v := ne_of_lt (hat v hvt)
      rw [List.indexOf_cons_ne _ hne, ih hst hvt, List.countP_cons]
      simp [hat v hvt, Nat.succ_eq_add_one]

lemma rank_lt_of_mem {x : List ℤ} {v : ℤ} (hv : v ∈ x) :
    (sortedDistinct x).indexOf v < (sortedDistinct x).length :=
  List.indexOf_lt_length.mpr (mem_sortedDistinct.mpr hv)

lemma getD_mem_of_lt {α : Type} {x : List α} {i : ℕ} (hi : i < x.length) (a : α) :
    x.getD i a ∈ x := by
  rw [List.getD_eq_getElem _ _ hi]
  exact List.getElem_mem hi

lemma distinct_but_small_length (x : List ℤ) : (distinct_but_small x).length = x.length := by
  simp [distinct_but_small]

lemma distinct_but_small_getD {x : List ℤ} {i : ℕ} (hi : i < x.length) :
    (distinct_but_small x).getD i 0 = ((sortedDistinct x).indexOf (x.getD i 0) : ℤ) := by
  have hi2 : i < (distinct_but_small x).length := by rw [distinct_but_small_length]; exact hi
  rw [List.getD_eq_getElem _ _ hi2, List.getD_eq_getElem _ _ hi]
  simp only [distinct_but_small, List.getElem_map]
  rw [indexOf_jnpUniqueSized (List.getElem_mem hi)]

lemma distinct_but_small_eq_iff {x : List ℤ} {i j : ℕ} (hi : i < x.length) (hj : j < x.length) :
    (distinct_but_small x).getD i 0 = (distinct_but_small x).getD j 0 ↔
      x.getD i 0 = x.getD j 0 := by
  rw [distinct_but_small_getD hi, distinct_but_small_getD hj, Nat.cast_inj]
  exact List.indexOf_inj (mem_sortedDistinct.mpr (getD_mem_of_lt hi 0))
    (mem_sortedDistinct.mpr (getD_mem_of_lt hj 0))

lemma distinct_but_small_getD_lt {x : List ℤ} {i : ℕ} (hi : i < x.length) :
    0 ≤ (distinct_but_small x).getD i 0 ∧
      (distinct_but_small x).getD i 0 < ((sortedDistinct x).length : ℤ) := by
  rw [distinct_but_small_getD hi]
  exact ⟨Int.natCast_nonneg _, by exact_mod_cast rank_lt_of_mem (getD_mem_of_lt hi 0)⟩

lemma natCast_mem_distinct_but_small {x : List ℤ} {b : ℕ}
    (hb : b < (sortedDistinct x).length) :
    (b : ℤ) ∈ distinct_but_small x := by
  have hmem : (sortedDistinct x).get ⟨b, hb⟩ ∈ x :=
    mem_sortedDistinct.mp (List.get_mem _ _ hb)
  refine List.mem_map.mpr ⟨(sortedDistinct x).get ⟨b, hb⟩, hmem, ?_⟩
  rw [indexOf_jnpUniqueSized hmem, List.get_indexOf (sortedDistinct_nodup x) ⟨b, hb⟩]

/-! ### Facts about the scatter-add -/

lemma effIdx_some_lt {d : ℕ} {i : ℤ} {b : ℕ} (h : effIdx d i = some b) : b < d := by
  unfold effIdx at h
  set j := (if i < 0 then i + (d : ℤ) else i) with hj
  by_cases hc : 0 ≤ j ∧ j < (d : ℤ)
  · rw [if_pos hc] at h
    have hb2 : j.toNat = b := Option.some_inj.mp h
    omega
  · rw [if_neg hc] at h
    cases h

lemma effIdx_of_nonneg {d : ℕ} {i : ℤ} (h0 : 0 ≤ i) {b : ℕ} (hb : b < d) :
    effIdx d i = some b ↔ i = (b : ℤ) := by
  unfold effIdx
  rw [if_neg (not_lt.mpr h0)]
  by_cases hc : 0 ≤ i ∧ i < (d : ℤ)
  · rw [if_pos hc, Option.some_inj]
    omega
  · rw [if_neg hc]
    constructor
    · intro h
      cases h
    · intro h
      exact absurd (⟨by omega, by omega⟩ : 0 ≤ i ∧ i < (d : ℤ)) hc

lemma effIdx_isSome_of_nonneg {d : ℕ} {i : ℤ} (h0 : 0 ≤ i) :
    (effIdx d i).isSome = true ↔ i < (d : ℤ) := by
  unfold effIdx
  rw [if_neg (not_lt.mpr h0)]
  by_cases hc : 0 ≤ i ∧ i < (d : ℤ)
  · rw [if_pos hc]
    simp only [Option.isSome_some]
    exact ⟨fun _ => hc.2, fun _ => trivial⟩
  · rw [if_neg hc]
    simp only [Option.isSome_none]
    constructor
    · intro h
      cases h
    · intro h
      exact absurd ⟨h0, h⟩ hc

lemma applyUpdate_length {M : Type} [AddCommMonoid M] (d : ℕ) (acc : List M) (i : ℤ) (v : M) :
    (applyUpdate d acc i v).length = acc.length := by
  unfold applyUpdate
  cases h : effIdx d i <;> simp

lemma foldl_applyUpdate_length {M : Type} [AddCommMonoid M] (d : ℕ) (pairs : List (ℤ × M))
    (acc : List M) :
    (pairs.foldl (fun acc p => applyUpdate d acc p.1 p.2) acc).length = acc.length := by
  induction pairs generalizing acc with
  | nil => rfl
  | cons p t ih => rw [List.foldl_cons, ih, applyUpdate_length]

lemma getD_set_self {M : Type} {acc : List M} {b : ℕ} (hb : b < acc.length) (w z : M) :
    (acc.set b w).getD b z = w := by
  rw [List.getD_eq_getElem?_getD, List.getElem?_set_self (by omega), Option.getD_some]

lemma getD_set_ne {M : Type} {acc : List M} {b c : ℕ} (hbc : c ≠ b) (w z : M) :
    (acc.set c w).getD b z = acc.getD b z := by
  rw [List.getD_eq_getElem?_getD, List.getElem?_set_ne hbc, ← List.getD_eq_getElem?_getD]

lemma applyUpdate_of_none {M : Type} [AddCommMonoid M] {d : ℕ} {i : ℤ} (acc : List M) (v : M)
    (h : effIdx d i = none) : applyUpdate d acc i v = acc := by
  unfold applyUpdate
  rw [h]

lemma applyUpdate_of_some {M : Type} [AddCommMonoid M] {d : ℕ} {i : ℤ} {c : ℕ} (acc : List M)
    (v : M) (h : effIdx d i = some c) :
    applyUpdate d acc i v = acc.set c (acc.getD c 0 + v) := by
  unfold applyUpdate
  rw [h]

lemma foldl_applyUpdate_getD {M : Type} [AddCommMonoid M] (d : ℕ) (pairs : List (ℤ × M))
    (acc : List M) (hacc : acc.length = d) {b : ℕ} (hb : b < d) :
    (pairs.foldl (fun acc p => applyUpdate d acc p.1 p.2) acc).getD b 0
      = acc.getD b 0
        + ((pairs.filter (fun p => decide (effIdx d p.1 = some b))).map Prod.snd).sum := by
  induction pairs generalizing acc with
  | nil => simp
  | cons p t ih =>
    rw [List.foldl_cons, List.filter_cons]
    cases h : effIdx d p.1 with
    | none =>
      rw [applyUpdate_of_none acc p.2 h, ih acc hacc]
      simp
    | some c =>
      have hc : c < d := effIdx_some_lt h
      rw [applyUpdate_of_some acc p.2 h,
        ih _ (by rw [List.length_set]; exact hacc)]
      by_cases hbc : c = b
      · subst hbc
        rw [getD_set_self (by omega) _ _]
        simp [add_assoc]
      · rw [getD_set_ne hbc _ _]
        simp [hbc]

lemma scatterAdd_length {M : Type} [AddCommMonoid M] (d : ℕ) (pairs : List (ℤ × M)) :
    (scatterAdd d pairs).length = d := by
  unfold scatterAdd
  rw [foldl_applyUpdate_length, List.length_replicate]

lemma scatterAdd_getD {M : Type} [AddCommMonoid M] {d b : ℕ} (pairs : List (ℤ × M))
    (hb : b < d) :
    (scatterAdd d pairs).getD b 0
      = ((pairs.filter (fun p => decide (effIdx d p.1 = some b))).map Prod.snd).sum := by
  unfold scatterAdd
  rw [foldl_applyUpdate_getD d pairs _ (List.length_replicate _ _) hb]
  rw [List.getD_eq_getElem?_getD, List.getElem?_replicate, if_pos hb]
  simp

lemma scatterAdd_zip_getD {M : Type} [AddCommMonoid M] {idxs : List ℤ} {xs : List M}
    {d b : ℕ} (hnn : ∀ i ∈ idxs, 0 ≤ i) (hb : b < d) :
    (scatterAdd d (idxs.zip xs)).getD b 0 = groupSum idxs xs (b : ℤ) := by
  rw [scatterAdd_getD _ hb, groupSum]
  have hfc : ((idxs.zip xs).filter (fun p => decide (effIdx d p.1 = some b)))
      = ((idxs.zip xs).filter (fun p => decide (p.1 = (b : ℤ)))) := by
    apply List.filter_congr
    intro p hp
    obtain ⟨ia, va⟩ := p
    have h1 : 0 ≤ ia := hnn ia (List.of_mem_zip hp).1
    rw [decide_eq_decide]
    exact effIdx_of_nonneg h1 hb
  rw [hfc]

lemma sum_set_add {M : Type} [AddCommMonoid M] (acc : List M) {b : ℕ} (hb : b < acc.length)
    (v : M) : (acc.set b (acc.getD b 0 + v)).sum = acc.sum + v := by
  induction acc generalizing b with
  | nil => cases hb
  | cons a t ih =>
    cases b with
    | zero => simp [add_right_comm]
    | succ m =>
      have hm : m < t.length := by simpa using hb
      have hset : ((a :: t).set (m + 1) ((a :: t).getD (m + 1) 0 + v))
          = a :: t.set m (t.getD m 0 + v) := rfl
      rw [hset, List.sum_cons, List.sum_cons, ih hm, add_assoc]

lemma foldl_applyUpdate_sum {M : Type} [AddCommMonoid M] (d : ℕ) (pairs : List (ℤ × M))
    (acc : List M) (hacc : acc.length = d) :
    (pairs.foldl (fun acc p => applyUpdate d acc p.1 p.2) acc).sum
      = acc.sum + ((pairs.filter (fun p => (effIdx d p.1).isSome)).map Prod.snd).sum := by
  induction pairs generalizing acc with
  | nil => simp
  | cons p t ih =>
    rw [List.foldl_cons, List.filter_cons]
    cases h : effIdx d p.1 with
    | none =>
      rw [applyUpdate_of_none acc p.2 h, ih acc hacc]
      simp
    | some c =>
      have hc : c < d := effIdx_some_lt h
      rw [applyUpdate_of_some acc p.2 h, ih _ (by rw [List.length_set]; exact hacc)]
      rw [sum_set_add acc (by omega) p.2]
      simp only [Option.isSome_some, if_true, List.map_cons, List.sum_cons]
      abel

lemma scatterAdd_sum {M : Type} [AddCommMonoid M] (d : ℕ) (pairs : List (ℤ × M)) :
    (scatterAdd d pairs).sum
      = ((pairs.filter (fun p => (effIdx d p.1).isSome)).map Prod.snd).sum := by
  unfold scatterAdd
  rw [foldl_applyUpdate_sum d pairs _ (List.length_replicate _ _)]
  simp

/-! ### Unfolding the branches of index_add -/

lemma index_add_plain_some {M : Type} [AddCommMonoid M] (idxs : List ℤ) (xs : List M) (d : ℕ)
    (hlen : idxs.length = xs.length) :
    index_add idxs (FeatureInput.plain xs) (some d) false
      = Except.ok (FeatureInput.plain (scatterAdd d (idxs.zip xs))) := by
  simp [index_add, rowsOf, dataOf, hlen]

lemma index_add_plain_mapback {M : Type} [AddCommMonoid M] (idxs : List ℤ) (xs : List M)
    (hlen : idxs.length = xs.length) :
    index_add idxs (FeatureInput.plain xs) none true
      = Except.ok (FeatureInput.plain ((distinct_but_small idxs).map
          (fun i => jnpGet (scatterAdd idxs.length ((distinct_but_small idxs).zip xs)) i))) := by
  simp [index_add, rowsOf, dataOf, hlen]

lemma jnpGet_eq_getD {α : Type} [Zero α] (l : List α) (i : ℤ) (h0 : 0 ≤ i)
    (hl : i < (l.length : ℤ)) : jnpGet l i = l.getD i.toNat 0 := by
  unfold jnpGet wrapClamp
  congr 1
  omega

/-! ### Facts about the distance mask and the pair extraction -/

lemma sqdist_nonneg (p q : ℚ × ℚ × ℚ) : 0 ≤ sqdist p q := by
  unfold sqdist
  positivity

lemma sqdist_eq_zero_iff (p q : ℚ × ℚ × ℚ) : sqdist p q = 0 ↔ p = q := by
  obtain ⟨p1, p2, p3⟩ := p
  obtain ⟨q1, q2, q3⟩ := q
  unfold sqdist
  simp only [Prod.mk.injEq]
  constructor
  · intro h
    refine ⟨?_, ?_, ?_⟩ <;> nlinarith [sq_nonneg (p1 - q1), sq_nonneg (p2 - q2), sq_nonneg (p3 - q3)]
  · rintro ⟨rfl, rfl, rfl⟩
    ring

lemma eucDist_lt_iff {p q : ℚ × ℚ × ℚ} {rmax : ℚ} :
    eucDist p q < (rmax : ℝ) ↔ (0 < rmax ∧ sqdist p q < rmax ^ 2) := by
  unfold eucDist
  constructor
  · intro h
    have hr : (0 : ℝ) < (rmax : ℝ) := lt_of_le_of_lt (Real.sqrt_nonneg _) h
    have hr2 : 0 < rmax := by exact_mod_cast hr
    refine ⟨hr2, ?_⟩
    have hsq := (Real.sqrt_lt' hr).mp h
    have : ((sqdist p q : ℚ) : ℝ) < (((rmax ^ 2 : ℚ)) : ℝ) := by push_cast; exact hsq
    exact_mod_cast this
  · rintro ⟨hr, hs⟩
    have hr2 : (0 : ℝ) < (rmax : ℝ) := by exact_mod_cast hr
    rw [Real.sqrt_lt' hr2]
    have : ((sqdist p q : ℚ) : ℝ) < (((rmax ^ 2 : ℚ)) : ℝ) := by exact_mod_cast hs
    push_cast at this
    exact this

lemma eucDist_pos_iff (p q : ℚ × ℚ × ℚ) : 0 < eucDist p q ↔ 0 < sqdist p q := by
  unfold eucDist
  rw [Real.sqrt_pos]
  exact_mod_cast Iff.rfl

lemma eucDist_self_eq_zero (p : ℚ × ℚ × ℚ) : eucDist p p = 0 := by
  unfold eucDist
  have h0 : sqdist p p = 0 := (sqdist_eq_zero_iff p p).mpr rfl
  rw [h0]
  simp

lemma distMask_iff_eucDist (pos : List (ℚ × ℚ × ℚ)) (rmax : ℚ) (loop : Bool) (i j : ℕ) :
    distMask pos rmax loop i j = true ↔
      (eucDist (pos.getD i (0, 0, 0)) (pos.getD j (0, 0, 0)) < (rmax : ℝ) ∧
       (loop = false → 0 < eucDist (pos.getD i (0, 0, 0)) (pos.getD j (0, 0, 0)))) := by
  unfold distMask
  simp only [Bool.and_eq_true, Bool.or_eq_true, decide_eq_true_eq]
  constructor
  · rintro ⟨⟨hr, hs⟩, hl⟩
    refine ⟨eucDist_lt_iff.mpr ⟨hr, hs⟩, ?_⟩
    intro hloop
    rcases hl with hl | hl
    · rw [hloop] at hl
      cases hl
    · exact (eucDist_pos_iff _ _).mpr hl
  · rintro ⟨hlt, hpos⟩
    obtain ⟨hr, hs⟩ := eucDist_lt_iff.mp hlt
    refine ⟨⟨hr, hs⟩, ?_⟩
    cases loop with
    | true => exact Or.inl rfl
    | false => exact Or.inr ((eucDist_pos_iff _ _).mp (hpos rfl))

lemma mem_truePairs {n : ℕ} {mask : ℕ → ℕ → Bool} {i j : ℕ} :
    ((i : ℤ), (j : ℤ)) ∈ truePairs n mask ↔ (i < n ∧ j < n ∧ mask i j = true) := by
  unfold truePairs
  simp only [List.mem_flatMap, List.mem_map, List.mem_filter, List.mem_range, Prod.mk.injEq]
  constructor
  · rintro ⟨a, ha, c, ⟨hc, hm⟩, hai, hcj⟩
    have hai2 : a = i := by exact_mod_cast hai
    have hcj2 : c = j := by exact_mod_cast hcj
    subst hai2
    subst hcj2
    exact ⟨ha, hc, hm⟩
  · rintro ⟨hi, hj, hm⟩
    exact ⟨i, hi, j, ⟨hj, hm⟩, rfl, rfl⟩

lemma jnpWhere_some_length (n : ℕ) (mask : ℕ → ℕ → Bool) (s : ℕ) :
    (jnpWhere n mask (some s)).length = s := by
  unfold jnpWhere
  rw [List.length_append, List.length_take, List.length_replicate]
  omega

lemma index_add_labeled_some {M : Type} [AddCommMonoid M] (idxs : List ℤ) (a : IrrepsArray M)
    (d : ℕ) (hlen : idxs.length = a.array.length) :
    index_add idxs (FeatureInput.labeled a) (some d) false
      = Except.ok (FeatureInput.labeled ⟨a.irreps, scatterAdd d (idxs.zip a.array)⟩) := by
  simp [index_add, rowsOf, dataOf, hlen]

lemma index_add_labeled_mapback {M : Type} [AddCommMonoid M] (idxs : List ℤ) (a : IrrepsArray M)
    (hlen : idxs.length = a.array.length) :
    index_add idxs (FeatureInput.labeled a) none true
      = Except.ok (FeatureInput.labeled ⟨a.irreps, (distinct_but_small idxs).map
          (fun i => jnpGet (scatterAdd idxs.length ((distinct_but_small idxs).zip a.array)) i)⟩) := by
  simp [index_add, rowsOf, dataOf, hlen]

/-! ### Claims about index_add -/

/-- C1: for `index_add` with `map_back = False` and a valid `out_dim`, indices all
in `[0, out_dim)` and matching row counts, the result is an array of `out_dim`
rows where bucket `b` is the sum of the input rows whose index is `b`, and a
bucket no row maps to is zero. -/
theorem C1_index_add_scatter {M : Type} [AddCommMonoid M] (idxs : List ℤ) (xs : List M)
    (d b : ℕ) (hlen : idxs.length = xs.length)
    (hrange : ∀ i ∈ idxs, 0 ≤ i ∧ i < (d : ℤ)) (hb : b < d) :
    ∃ out : List M,
      index_add idxs (FeatureInput.plain xs) (some d) false
        = Except.ok (FeatureInput.plain out) ∧
      out.length = d ∧
      out.getD b 0 = groupSum idxs xs (b : ℤ) ∧
      ((b : ℤ) ∉ idxs → out.getD b 0 = 0) := by
  refine ⟨scatterAdd d (idxs.zip xs), index_add_plain_some idxs xs d hlen,
    scatterAdd_length d _, scatterAdd_zip_getD (fun i hi => (hrange i hi).1) hb, ?_⟩
  intro hnot
  rw [scatterAdd_zip_getD (fun i hi => (hrange i hi).1) hb, groupSum]
  have hnil : (idxs.zip xs).filter (fun p => decide (p.1 = (b : ℤ))) = [] := by
    apply List.filter_eq_nil_iff.mpr
    intro p hp
    simp only [decide_eq_true_eq]
    intro hpb
    exact hnot (hpb ▸ (List.of_mem_zip hp).1)
  rw [hnil]
  simp

/-- C7: `index_add` fails with InvalidConfiguration exactly when the two sizing
modes are not used exclusively (`out_dim` unset with `map_back` false, or
`out_dim` set with `map_back` true), and a failing call yields no output. -/
theorem C7_invalid_configuration {M : Type} [AddCommMonoid M] (idxs : List ℤ)
    (input : FeatureInput M) (od : Option ℕ) (mb : Bool)
    (hlen : idxs.length = rowsOf input) :
    (index_add idxs input od mb = Except.error GraphError.InvalidConfiguration
      ↔ ((od = none ∧ mb = false) ∨ (od ≠ none ∧ mb = true))) ∧
    (∀ e : GraphError, index_add idxs input od mb = Except.error e →
      ∀ o : FeatureInput M, index_add idxs input od mb ≠ Except.ok o) := by
  constructor
  · rcases od with _ | d <;> cases mb <;> cases input <;>
      simp [index_add, rowsOf, dataOf, hlen]
  · intro e he o
    rw [he]
    simp

/-- C8: on a labeled feature array, `index_add` returns a labeled array carrying
exactly the input's irreps, and its numeric data is what the plain scatter of the
underlying data yields. -/
theorem C8_irreps_preserved {M : Type} [AddCommMonoid M] (idxs : List ℤ) (a : IrrepsArray M)
    (od : Option ℕ) (mb : Bool) (hlen : idxs.length = a.array.length)
    (hconf : (od = none ∧ mb = true) ∨ (od ≠ none ∧ mb = false)) :
    ∃ out : IrrepsArray M,
      index_add idxs (FeatureInput.labeled a) od mb
        = Except.ok (FeatureInput.labeled out) ∧
      out.irreps = a.irreps ∧
      index_add idxs (FeatureInput.plain a.array) od mb
        = Except.ok (FeatureInput.plain out.array) := by
  rcases hconf with ⟨hod, hmb⟩ | ⟨hod, hmb⟩
  · subst hod
    subst hmb
    exact ⟨⟨a.irreps, _⟩, index_add_labeled_mapback idxs a hlen, rfl,
      index_add_plain_mapback idxs a.array hlen⟩
  · obtain ⟨d, rfl⟩ : ∃ d, od = some d := Option.ne_none_iff_exists'.mp hod
    subst hmb
    exact ⟨⟨a.irreps, _⟩, index_add_labeled_some idxs a d hlen, rfl,
      index_add_plain_some idxs a.array d hlen⟩

/-- C10: with `map_back = False` and a valid `out_dim`, an out-of-range bucket
index raises no error: the call succeeds, every bucket still holds the sum of
the rows mapping to it, and the output total is the total of the in-range rows
only (out-of-range rows are silently dropped). -/
theorem C10_oob_rows_dropped {M : Type} [AddCommMonoid M] (idxs : List ℤ) (xs : List M)
    (d b : ℕ) (hlen : idxs.length = xs.length) (hnn : ∀ i ∈ idxs, 0 ≤ i) (hb : b < d) :
    ∃ out : List M,
      index_add idxs (FeatureInput.plain xs) (some d) false
        = Except.ok (FeatureInput.plain out) ∧
      out.length = d ∧
      out.getD b 0 = groupSum idxs xs (b : ℤ) ∧
      out.sum = (((idxs.zip xs).filter (fun p => decide (p.1 < (d : ℤ)))).map Prod.snd).sum := by
  refine ⟨scatterAdd d (idxs.zip xs), index_add_plain_some idxs xs d hlen,
    scatterAdd_length d _, scatterAdd_zip_getD hnn hb, ?_⟩
  rw [scatterAdd_sum]
  congr 1
  apply congrArg
  apply List.filter_congr
  intro p hp
  obtain ⟨ia, va⟩ := p
  have h1 : 0 ≤ ia := hnn ia (List.of_mem_zip hp).1
  have h2 := effIdx_isSome_of_nonneg (d := d) h1
  by_cases hlt : ia < (d : ℤ)
  · rw [decide_eq_true hlt]
    exact h2.mpr hlt
  · rw [decide_eq_false hlt]
    exact Bool.eq_false_iff.mpr (fun hs => hlt (h2.mp hs))

lemma distinct_but_small_nonneg (x : List ℤ) : ∀ v ∈ distinct_but_small x, 0 ≤ v := by
  intro v hv
  obtain ⟨w, hw, rfl⟩ := List.mem_map.mp hv
  exact Int.natCast_nonneg _

lemma map_snd_filter_zip_congr {M : Type} (l₁ l₂ : List ℤ) (xs : List M) (p q : ℤ → Bool)
    (hlen : l₁.length = l₂.length)
    (hpq : ∀ k, k < l₁.length → p (l₁.getD k 0) = q (l₂.getD k 0)) :
    ((l₁.zip xs).filter (fun a => p a.1)).map Prod.snd
      = ((l₂.zip xs).filter (fun a => q a.1)).map Prod.snd := by
  induction l₁ generalizing l₂ xs with
  | nil =>
    have h2 : l₂.length = 0 := by simpa using hlen.symm
    have h3 : l₂ = [] := List.length_eq_zero.mp h2
    subst h3
    simp
  | cons a t ih =>
    cases l₂ with
    | nil => simp at hlen
    | cons c t₂ =>
      cases xs with
      | nil => simp
      | cons v vs =>
        rw [List.zip_cons_cons, List.zip_cons_cons, List.filter_cons, List.filter_cons]
        have h0 : p a = q c := by
          have := hpq 0 (by simp)
          simpa using this
        have hrest : ∀ k, k < t.length → p (t.getD k 0) = q (t₂.getD k 0) := by
          intro k hk
          have := hpq (k + 1) (by simp; omega)
          simpa using this
        have hlen2 : t.length = t₂.length := by simpa using hlen
        cases hpa : p a with
        | false =>
          rw [if_neg (by simp [hpa]), if_neg (by simp [hpa ▸ h0.symm])]
          exact ih t₂ vs hlen2 hrest
        | true =>
          rw [if_pos (by simp [hpa]), if_pos (by simp [hpa ▸ h0.symm])]
          rw [List.map_cons, List.map_cons, ih t₂ vs hlen2 hrest]

lemma groupSum_relabel {M : Type} [AddCommMonoid M] (idxs : List ℤ) (xs : List M) {i : ℕ}
    (hi : i < idxs.length) :
    groupSum (distinct_but_small idxs) xs ((distinct_but_small idxs).getD i 0)
      = groupSum idxs xs (idxs.getD i 0) := by
  unfold groupSum
  refine congrArg List.sum ?_
  refine map_snd_filter_zip_congr (distinct_but_small idxs) idxs xs
    (fun v => decide (v = (distinct_but_small idxs).getD i 0))
    (fun v => decide (v = idxs.getD i 0)) (distinct_but_small_length idxs) ?_
  intro k hk
  rw [decide_eq_decide]
  have hk2 : k < idxs.length := by rw [distinct_but_small_length] at hk; exact hk
  exact distinct_but_small_eq_iff hk2 hi

/-- C2: `index_add` with `map_back = True` and `out_dim` unset returns an array
with exactly as many rows as the input, where row `i` is the sum of all input
rows `k` with `indices[k] == indices[i]`. -/
theorem C2_mapback_rowsums {M : Type} [AddCommMonoid M] (idxs : List ℤ) (xs : List M)
    (i : ℕ) (hlen : idxs.length = xs.length) (hi : i < idxs.length) :
    ∃ out : List M,
      index_add idxs (FeatureInput.plain xs) none true
        = Except.ok (FeatureInput.plain out) ∧
      out.length = idxs.length ∧
      out.getD i 0 = groupSum idxs xs (idxs.getD i 0) := by
  refine ⟨_, index_add_plain_mapback idxs xs hlen, ?_, ?_⟩
  · rw [List.length_map, distinct_but_small_length]
  · have hylen : (distinct_but_small idxs).length = idxs.length :=
      distinct_but_small_length idxs
    have hiy : i < (distinct_but_small idxs).length := by omega
    obtain ⟨h0r, hrk⟩ := distinct_but_small_getD_lt (x := idxs) hi
    have hkN : ((sortedDistinct idxs).length : ℤ) ≤ (idxs.length : ℤ) := by
      exact_mod_cast sortedDistinct_length_le idxs
    have hrN : (distinct_but_small idxs).getD i 0 < (idxs.length : ℤ) := by omega
    rw [List.getD_eq_getElem _ _ (by rw [List.length_map]; omega), List.getElem_map,
      ← List.getD_eq_getElem _ 0 hiy]
    rw [jnpGet_eq_getD _ _ h0r (by rw [scatterAdd_length]; exact hrN)]
    have hbN : ((distinct_but_small idxs).getD i 0).toNat < idxs.length := by omega
    rw [scatterAdd_zip_getD (distinct_but_small_nonneg idxs) hbN,
      Int.toNat_of_nonneg h0r, groupSum_relabel idxs xs hi]

/-- C4: the relabelling helper maps a list of integers to a list of the same
length in which entries are equal exactly where the originals were, the values
are exactly the natural numbers below the number of distinct keys, and each key
is sent to its rank (the count of distinct keys smaller than it) in the
ascending order of the distinct keys. -/
theorem C4_distinct_but_small (x : List ℤ) (i j b : ℕ) (hi : i < x.length)
    (hj : j < x.length) (hb : b < (sortedDistinct x).length) :
    (distinct_but_small x).length = x.length ∧
    ((distinct_but_small x).getD i 0 = (distinct_but_small x).getD j 0 ↔
      x.getD i 0 = x.getD j 0) ∧
    (0 ≤ (distinct_but_small x).getD i 0 ∧
      (distinct_but_small x).getD i 0 < ((sortedDistinct x).length : ℤ)) ∧
    (sortedDistinct x).length ≤ x.length ∧
    ((b : ℤ) ∈ distinct_but_small x) ∧
    (distinct_but_small x).getD i 0
      = ((sortedDistinct x).countP (fun w => decide (w < x.getD i 0)) : ℤ) := by
  refine ⟨distinct_but_small_length x, distinct_but_small_eq_iff hi hj,
    distinct_but_small_getD_lt hi, sortedDistinct_length_le x,
    natCast_mem_distinct_but_small hb, ?_⟩
  rw [distinct_but_small_getD hi, Nat.cast_inj]
  exact indexOf_eq_countP_lt (sortedDistinct_sorted x)
    (mem_sortedDistinct.mpr (getD_mem_of_lt hi 0))

/-! ### Claims about radius_graph -/

/-- C3: a pair is in the adjacency relation of `radius_graph` iff its Euclidean
distance is strictly below `r_max` and, without self-loops, strictly above 0;
a pair at distance exactly `r_max` is excluded, coincident points are excluded
when `loop` is false, and every diagonal pair is included when `loop` is true
and `0 < r_max`. -/
theorem C3_radius_graph_mask (pos : List (ℚ × ℚ × ℚ)) (rmax : ℚ) (loop : Bool) (i j : ℕ)
    (hi : i < pos.length) (hj : j < pos.length) :
    (((i : ℤ), (j : ℤ)) ∈ radius_graph pos rmax none none loop ↔
      (eucDist (pos.getD i (0, 0, 0)) (pos.getD j (0, 0, 0)) < (rmax : ℝ) ∧
       (loop = false → 0 < eucDist (pos.getD i (0, 0, 0)) (pos.getD j (0, 0, 0))))) ∧
    (eucDist (pos.getD i (0, 0, 0)) (pos.getD j (0, 0, 0)) = (rmax : ℝ) →
      ((i : ℤ), (j : ℤ)) ∉ radius_graph pos rmax none none loop) ∧
    (loop = false → pos.getD i (0, 0, 0) = pos.getD j (0, 0, 0) →
      ((i : ℤ), (j : ℤ)) ∉ radius_graph pos rmax none none loop) ∧
    (loop = true → 0 < rmax →
      ((i : ℤ), (i : ℤ)) ∈ radius_graph pos rmax none none true) := by
  have hrg : radius_graph pos rmax none none loop
      = truePairs pos.length (distMask pos rmax loop) := rfl
  have hmem : ((i : ℤ), (j : ℤ)) ∈ radius_graph pos rmax none none loop ↔
      (eucDist (pos.getD i (0, 0, 0)) (pos.getD j (0, 0, 0)) < (rmax : ℝ) ∧
       (loop = false → 0 < eucDist (pos.getD i (0, 0, 0)) (pos.getD j (0, 0, 0)))) := by
    rw [hrg, mem_truePairs]
    constructor
    · rintro ⟨_, _, hm⟩
      exact (distMask_iff_eucDist pos rmax loop i j).mp hm
    · intro h
      exact ⟨hi, hj, (distMask_iff_eucDist pos rmax loop i j).mpr h⟩
  refine ⟨hmem, ?_, ?_, ?_⟩
  · intro heq hmem2
    have h2 := (hmem.mp hmem2).1
    rw [heq] at h2
    exact lt_irrefl _ h2
  · intro hloop heq hmem2
    have h2 := (hmem.mp hmem2).2 hloop
    rw [heq, eucDist_self_eq_zero] at h2
    exact lt_irrefl _ h2
  · intro hloop hr
    subst hloop
    rw [hrg, mem_truePairs]
    refine ⟨hi, hi, ?_⟩
    rw [distMask_iff_eucDist]
    refine ⟨?_, fun h => absurd h (by simp)⟩
    rw [eucDist_self_eq_zero]
    exact_mod_cast hr

/-- C5: with a batch array, `radius_graph` never returns a pair whose gathered
batch ids differ; the batch filter runs after the fixed-size extraction, so the
result is the filtered fixed-size list and its length may be below `size`. -/
theorem C5_batch_filter (pos : List (ℚ × ℚ × ℚ)) (rmax : ℚ) (loop : Bool) (b : List ℤ)
    (s : ℕ) (p : ℤ × ℤ)
    (hp : p ∈ radius_graph pos rmax (some b) (some s) loop) :
    jnpGet b p.1 = jnpGet b p.2 ∧
    radius_graph pos rmax (some b) (some s) loop
      = (radius_graph pos rmax none (some s) loop).filter
          (fun q => decide (jnpGet b q.1 = jnpGet b q.2)) ∧
    (radius_graph pos rmax (some b) (some s) loop).length ≤ s := by
  refine ⟨?_, rfl, ?_⟩
  · have h2 := (List.mem_filter.mp hp).2
    exact of_decide_eq_true h2
  · calc (radius_graph pos rmax (some b) (some s) loop).length
        ≤ (jnpWhere pos.length (distMask pos rmax loop) (some s)).length :=
          List.length_filter_le _ _
      _ = s := jnpWhere_some_length _ _ _

/-- C6: with a fixed `size` and no batch, the result has length exactly `size`
in every regime; it is the row-major true-pair list truncated to `size` and
right-padded with the sentinel pair `(-1, -1)`: every slot past the true pair
count holds `(-1, -1)`, every slot below both bounds holds the corresponding
true pair, and when the true pair count exceeds `size` the excess pairs are
silently omitted with no error (the function is total). -/
theorem C6_fixed_size (pos : List (ℚ × ℚ × ℚ)) (rmax : ℚ) (loop : Bool) (s : ℕ) :
    (radius_graph pos rmax none (some s) loop).length = s ∧
    radius_graph pos rmax none (some s) loop
      = (truePairs pos.length (distMask pos rmax loop)).take s
        ++ List.replicate (s - (truePairs pos.length (distMask pos rmax loop)).length)
            ((-1 : ℤ), (-1 : ℤ)) ∧
    (∀ k : ℕ, (truePairs pos.length (distMask pos rmax loop)).length ≤ k → k < s →
      (radius_graph pos rmax none (some s) loop).getD k ((0 : ℤ), (0 : ℤ))
        = ((-1 : ℤ), (-1 : ℤ))) ∧
    (∀ k : ℕ, k < s → k < (truePairs pos.length (distMask pos rmax loop)).length →
      (radius_graph pos rmax none (some s) loop).getD k ((0 : ℤ), (0 : ℤ))
        = (truePairs pos.length (distMask pos rmax loop)).getD k ((0 : ℤ), (0 : ℤ))) := by
  set tp := truePairs pos.length (distMask pos rmax loop) with htp
  have hshow : radius_graph pos rmax none (some s) loop
      = tp.take s ++ List.replicate (s - tp.length) ((-1 : ℤ), (-1 : ℤ)) := rfl
  have htake : (tp.take s).length = min s tp.length := List.length_take _ _
  refine ⟨jnpWhere_some_length _ _ _, hshow, ?_, ?_⟩
  · intro k hk1 hk2
    rw [hshow, List.getD_eq_getElem?_getD, List.getElem?_append_right (by omega),
      List.getElem?_replicate, if_pos (by omega)]
    rfl
  · intro k hk1 hk2
    rw [hshow, List.getD_eq_getElem?_getD, List.getElem?_append_left (by omega),
      List.getElem?_take, if_pos hk1, ← List.getD_eq_getElem?_getD]

/-- C9: with both `size` and a batch array, when the true pair count is below
`size` the sentinel padding pairs `(-1, -1)` pass the batch filter (the gather
wraps `-1` to the last batch entry on both sides) and remain in the result. -/
theorem C9_padding_survives_batch (pos : List (ℚ × ℚ × ℚ)) (rmax : ℚ) (loop : Bool)
    (b : List ℤ) (s : ℕ)
    (h : (truePairs pos.length (distMask pos rmax loop)).length < s) :
    radius_graph pos rmax (some b) (some s) loop
      = ((truePairs pos.length (distMask pos rmax loop)).filter
          (fun q => decide (jnpGet b q.1 = jnpGet b q.2)))
        ++ List.replicate (s - (truePairs pos.length (distMask pos rmax loop)).length)
            ((-1 : ℤ), (-1 : ℤ)) ∧
    ((-1 : ℤ), (-1 : ℤ)) ∈ radius_graph pos rmax (some b) (some s) loop := by
  set tp := truePairs pos.length (distMask pos rmax loop) with htp
  have heq : radius_graph pos rmax (some b) (some s) loop
      = (tp.filter (fun q => decide (jnpGet b q.1 = jnpGet b q.2)))
        ++ List.replicate (s - tp.length) ((-1 : ℤ), (-1 : ℤ)) := by
    have hshow : radius_graph pos rmax (some b) (some s) loop
        = (tp.take s ++ List.replicate (s - tp.length) ((-1 : ℤ), (-1 : ℤ))).filter
            (fun q => decide (jnpGet b q.1 = jnpGet b q.2)) := rfl
    rw [hshow, List.take_of_length_le (le_of_lt h), List.filter_append,
      List.filter_replicate, if_pos (by simp)]
  refine ⟨heq, ?_⟩
  rw [heq]
  exact List.mem_append_right _ (List.mem_replicate.mpr ⟨by omega, rfl⟩)

/-! ### Concrete witnesses -/

/-- Witness for C1 at the worked example of the source's docstring. -/
theorem C1_index_add_scatter_witness :
    ([(0 : ℤ), 2, 2, 0].length = [(1 : ℚ), 2, 3, -10].length) ∧
    (∀ i ∈ [(0 : ℤ), 2, 2, 0], 0 ≤ i ∧ i < ((4 : ℕ) : ℤ)) ∧
    ((2 : ℕ) < 4) ∧
    (∃ out : List ℚ,
      index_add [(0 : ℤ), 2, 2, 0] (FeatureInput.plain [(1 : ℚ), 2, 3, -10]) (some 4) false
        = Except.ok (FeatureInput.plain out) ∧
      out.length = 4 ∧
      out.getD 2 0 = groupSum [(0 : ℤ), 2, 2, 0] [(1 : ℚ), 2, 3, -10] ((2 : ℕ) : ℤ) ∧
      (((2 : ℕ) : ℤ) ∉ [(0 : ℤ), 2, 2, 0] → out.getD 2 0 = 0)) :=
  ⟨by decide, by decide, by decide,
    C1_index_add_scatter [0, 2, 2, 0] [(1 : ℚ), 2, 3, -10] 4 2 (by decide) (by decide)
      (by decide)⟩

/-- Witness for C2 on a four-row input with two distinct large indices. -/
theorem C2_mapback_rowsums_witness :
    ([(5 : ℤ), 9, 9, 5].length = [(1 : ℚ), 2, 3, -10].length) ∧
    (0 < [(5 : ℤ), 9, 9, 5].length) ∧
    (∃ out : List ℚ,
      index_add [(5 : ℤ), 9, 9, 5] (FeatureInput.plain [(1 : ℚ), 2, 3, -10]) none true
        = Except.ok (FeatureInput.plain out) ∧
      out.length = [(5 : ℤ), 9, 9, 5].length ∧
      out.getD 0 0
        = groupSum [(5 : ℤ), 9, 9, 5] [(1 : ℚ), 2, 3, -10] ([(5 : ℤ), 9, 9, 5].getD 0 0)) :=
  ⟨by decide, by decide,
    C2_mapback_rowsums [5, 9, 9, 5] [(1 : ℚ), 2, 3, -10] 0 (by decide) (by decide)⟩

/-- Witness for C3 on two points at distance 1 with threshold 3/2. -/
theorem C3_radius_graph_mask_witness :
    (0 < [((0 : ℚ), (0 : ℚ), (0 : ℚ)), (1, 0, 0)].length) ∧
    (1 < [((0 : ℚ), (0 : ℚ), (0 : ℚ)), (1, 0, 0)].length) ∧
    (((((0 : ℕ) : ℤ), ((1 : ℕ) : ℤ))
        ∈ radius_graph [((0 : ℚ), (0 : ℚ), (0 : ℚ)), (1, 0, 0)] (3 / 2) none none false ↔
      (eucDist ([((0 : ℚ), (0 : ℚ), (0 : ℚ)), (1, 0, 0)].getD 0 (0, 0, 0))
          ([((0 : ℚ), (0 : ℚ), (0 : ℚ)), (1, 0, 0)].getD 1 (0, 0, 0)) < ((3 / 2 : ℚ) : ℝ) ∧
       (false = false →
        0 < eucDist ([((0 : ℚ), (0 : ℚ), (0 : ℚ)), (1, 0, 0)].getD 0 (0, 0, 0))
          ([((0 : ℚ), (0 : ℚ), (0 : ℚ)), (1, 0, 0)].getD 1 (0, 0, 0))))) ∧
    (eucDist ([((0 : ℚ), (0 : ℚ), (0 : ℚ)), (1, 0, 0)].getD 0 (0, 0, 0))
        ([((0 : ℚ), (0 : ℚ), (0 : ℚ)), (1, 0, 0)].getD 1 (0, 0, 0)) = ((3 / 2 : ℚ) : ℝ) →
      (((0 : ℕ) : ℤ), ((1 : ℕ) : ℤ))
        ∉ radius_graph [((0 : ℚ), (0 : ℚ), (0 : ℚ)), (1, 0, 0)] (3 / 2) none none false) ∧
    (false = false →
      [((0 : ℚ), (0 : ℚ), (0 : ℚ)), (1, 0, 0)].getD 0 (0, 0, 0)
          = [((0 : ℚ), (0 : ℚ), (0 : ℚ)), (1, 0, 0)].getD 1 (0, 0, 0) →
      (((0 : ℕ) : ℤ), ((1 : ℕ) : ℤ))
        ∉ radius_graph [((0 : ℚ), (0 : ℚ), (0 : ℚ)), (1, 0, 0)] (3 / 2) none none false) ∧
    (false = true → 0 < (3 / 2 : ℚ) →
      (((0 : ℕ) : ℤ), ((0 : ℕ) : ℤ))
        ∈ radius_graph [((0 : ℚ), (0 : ℚ), (0 : ℚ)), (1, 0, 0)] (3 / 2) none none true)) :=
  ⟨by decide, by decide,
    C3_radius_graph_mask [((0 : ℚ), (0 : ℚ), (0 : ℚ)), (1, 0, 0)] (3 / 2) false 0 1
      (by decide) (by decide)⟩

/-- Witness for C4 on a list with three distinct keys and repetitions. -/
theorem C4_distinct_but_small_witness :
    (0 < [(7 : ℤ), 3, 7, 10, 3].length) ∧
    (2 < [(7 : ℤ), 3, 7, 10, 3].length) ∧
    (0 < (sortedDistinct [(7 : ℤ), 3, 7, 10, 3]).length) ∧
    ((distinct_but_small [(7 : ℤ), 3, 7, 10, 3]).length = [(7 : ℤ), 3, 7, 10, 3].length ∧
    ((distinct_but_small [(7 : ℤ), 3, 7, 10, 3]).getD 0 0
        = (distinct_but_small [(7 : ℤ), 3, 7, 10, 3]).getD 2 0 ↔
      [(7 : ℤ), 3, 7, 10, 3].getD 0 0 = [(7 : ℤ), 3, 7, 10, 3].getD 2 0) ∧
    (0 ≤ (distinct_but_small [(7 : ℤ), 3, 7, 10, 3]).getD 0 0 ∧
      (distinct_but_small [(7 : ℤ), 3, 7, 10, 3]).getD 0 0
        < ((sortedDistinct [(7 : ℤ), 3, 7, 10, 3]).length : ℤ)) ∧
    (sortedDistinct [(7 : ℤ), 3, 7, 10, 3]).length ≤ [(7 : ℤ), 3, 7, 10, 3].length ∧
    (((0 : ℕ) : ℤ) ∈ distinct_but_small [(7 : ℤ), 3, 7, 10, 3]) ∧
    (distinct_but_small [(7 : ℤ), 3, 7, 10, 3]).getD 0 0
      = ((sortedDistinct [(7 : ℤ), 3, 7, 10, 3]).countP
          (fun w => decide (w < [(7 : ℤ), 3, 7, 10, 3].getD 0 0)) : ℤ)) :=
  ⟨by decide, by decide,
    by rw [sortedDistinct, Finset.length_sort]; exact Finset.card_pos.mpr ⟨7, by simp⟩,
    C4_distinct_but_small [7, 3, 7, 10, 3] 0 2 0 (by decide) (by decide)
      (by rw [sortedDistinct, Finset.length_sort]; exact Finset.card_pos.mpr ⟨7, by simp⟩)⟩

/-- Witness for C5 on three collinear points split into two batches. -/
theorem C5_batch_filter_witness :
    (((0 : ℤ), (1 : ℤ)) ∈ radius_graph [((0 : ℚ), (0 : ℚ), (0 : ℚ)), (1, 0, 0), (2, 0, 0)]
      (3 / 2) (some [0, 0, 1]) (some 6) false) ∧
    (jnpGet [(0 : ℤ), 0, 1] ((0 : ℤ), (1 : ℤ)).1 = jnpGet [(0 : ℤ), 0, 1] ((0 : ℤ), (1 : ℤ)).2 ∧
    radius_graph [((0 : ℚ), (0 : ℚ), (0 : ℚ)), (1, 0, 0), (2, 0, 0)] (3 / 2)
        (some [0, 0, 1]) (some 6) false
      = (radius_graph [((0 : ℚ), (0 : ℚ), (0 : ℚ)), (1, 0, 0), (2, 0, 0)] (3 / 2)
          none (some 6) false).filter
          (fun q => decide (jnpGet [(0 : ℤ), 0, 1] q.1 = jnpGet [(0 : ℤ), 0, 1] q.2)) ∧
    (radius_graph [((0 : ℚ), (0 : ℚ), (0 : ℚ)), (1, 0, 0), (2, 0, 0)] (3 / 2)
        (some [0, 0, 1]) (some 6) false).length ≤ 6) :=
  ⟨by norm_num [radius_graph, jnpWhere, truePairs, distMask, sqdist, List.range_succ,
      jnpGet, wrapClamp],
    C5_batch_filter [((0 : ℚ), (0 : ℚ), (0 : ℚ)), (1, 0, 0), (2, 0, 0)] (3 / 2) false
      [0, 0, 1] 6 ((0 : ℤ), (1 : ℤ))
      (by norm_num [radius_graph, jnpWhere, truePairs, distMask, sqdist, List.range_succ,
        jnpGet, wrapClamp])⟩

/-- Witness for C6 on three collinear points with capacity 2 and four true
pairs, exercising the truncation regime. -/
theorem C6_fixed_size_witness :
    (radius_graph [((0 : ℚ), (0 : ℚ), (0 : ℚ)), (1, 0, 0), (2, 0, 0)] (3 / 2)
        none (some 2) false).length = 2 ∧
    radius_graph [((0 : ℚ), (0 : ℚ), (0 : ℚ)), (1, 0, 0), (2, 0, 0)] (3 / 2)
        none (some 2) false
      = (truePairs [((0 : ℚ), (0 : ℚ), (0 : ℚ)), (1, 0, 0), (2, 0, 0)].length
          (distMask [((0 : ℚ), (0 : ℚ), (0 : ℚ)), (1, 0, 0), (2, 0, 0)] (3 / 2) false)).take 2
        ++ List.replicate
            (2 - (truePairs [((0 : ℚ), (0 : ℚ), (0 : ℚ)), (1, 0, 0), (2, 0, 0)].length
              (distMask [((0 : ℚ), (0 : ℚ), (0 : ℚ)), (1, 0, 0), (2, 0, 0)] (3 / 2)
                false)).length)
            ((-1 : ℤ), (-1 : ℤ)) ∧
    (∀ k : ℕ, (truePairs [((0 : ℚ), (0 : ℚ), (0 : ℚ)), (1, 0, 0), (2, 0, 0)].length
        (distMask [((0 : ℚ), (0 : ℚ), (0 : ℚ)), (1, 0, 0), (2, 0, 0)] (3 / 2) false)).length
          ≤ k → k < 2 →
      (radius_graph [((0 : ℚ), (0 : ℚ), (0 : ℚ)), (1, 0, 0), (2, 0, 0)] (3 / 2)
          none (some 2) false).getD k ((0 : ℤ), (0 : ℤ)) = ((-1 : ℤ), (-1 : ℤ))) ∧
    (∀ k : ℕ, k < 2 →
      k < (truePairs [((0 : ℚ), (0 : ℚ), (0 : ℚ)), (1, 0, 0), (2, 0, 0)].length
        (distMask [((0 : ℚ), (0 : ℚ), (0 : ℚ)), (1, 0, 0), (2, 0, 0)] (3 / 2) false)).length →
      (radius_graph [((0 : ℚ), (0 : ℚ), (0 : ℚ)), (1, 0, 0), (2, 0, 0)] (3 / 2)
          none (some 2) false).getD k ((0 : ℤ), (0 : ℤ))
        = (truePairs [((0 : ℚ), (0 : ℚ), (0 : ℚ)), (1, 0, 0), (2, 0, 0)].length
            (distMask [((0 : ℚ), (0 : ℚ), (0 : ℚ)), (1, 0, 0), (2, 0, 0)] (3 / 2)
              false)).getD k ((0 : ℤ), (0 : ℤ))) :=
  C6_fixed_size [((0 : ℚ), (0 : ℚ), (0 : ℚ)), (1, 0, 0), (2, 0, 0)] (3 / 2) false 2

/-- Witness for C7 in the jointly-missing configuration. -/
theorem C7_invalid_configuration_witness :
    ([(0 : ℤ)].length = rowsOf (FeatureInput.plain [(1 : ℚ)])) ∧
    ((index_add [(0 : ℤ)] (FeatureInput.plain [(1 : ℚ)]) none false
        = Except.error GraphError.InvalidConfiguration
      ↔ (((none : Option ℕ) = none ∧ false = false) ∨
          ((none : Option ℕ) ≠ none ∧ false = true))) ∧
    (∀ e : GraphError,
      index_add [(0 : ℤ)] (FeatureInput.plain [(1 : ℚ)]) none false = Except.error e →
      ∀ o : FeatureInput ℚ,
        index_add [(0 : ℤ)] (FeatureInput.plain [(1 : ℚ)]) none false ≠ Except.ok o)) :=
  ⟨by decide,
    C7_invalid_configuration [0] (FeatureInput.plain [(1 : ℚ)]) none false (by decide)⟩

/-- Witness for C8 on a one-row labeled array scattered into two buckets. -/
theorem C8_irreps_preserved_witness :
    ([(0 : ℤ)].length = (IrrepsArray.mk [((0 : ℕ), 1, 1)] [(2 : ℚ)]).array.length) ∧
    (((some 2 : Option ℕ) = none ∧ false = true) ∨
      ((some 2 : Option ℕ) ≠ none ∧ false = false)) ∧
    (∃ out : IrrepsArray ℚ,
      index_add [(0 : ℤ)] (FeatureInput.labeled (IrrepsArray.mk [((0 : ℕ), 1, 1)] [(2 : ℚ)]))
          (some 2) false
        = Except.ok (FeatureInput.labeled out) ∧
      out.irreps = (IrrepsArray.mk [((0 : ℕ), 1, 1)] [(2 : ℚ)]).irreps ∧
      index_add [(0 : ℤ)]
          (FeatureInput.plain (IrrepsArray.mk [((0 : ℕ), 1, 1)] [(2 : ℚ)]).array)
          (some 2) false
        = Except.ok (FeatureInput.plain out.array)) :=
  ⟨by decide, by decide,
    C8_irreps_preserved [0] (IrrepsArray.mk [((0 : ℕ), 1, 1)] [(2 : ℚ)]) (some 2) false
      (by decide) (by decide)⟩

/-- Witness for C9 on three collinear points, capacity 6, four true pairs. -/
theorem C9_padding_survives_batch_witness :
    ((truePairs [((0 : ℚ), (0 : ℚ), (0 : ℚ)), (1, 0, 0), (2, 0, 0)].length
        (distMask [((0 : ℚ), (0 : ℚ), (0 : ℚ)), (1, 0, 0), (2, 0, 0)] (3 / 2) false)).length
      < 6) ∧
    (radius_graph [((0 : ℚ), (0 : ℚ), (0 : ℚ)), (1, 0, 0), (2, 0, 0)] (3 / 2)
        (some [0, 0, 1]) (some 6) false
      = ((truePairs [((0 : ℚ), (0 : ℚ), (0 : ℚ)), (1, 0, 0), (2, 0, 0)].length
          (distMask [((0 : ℚ), (0 : ℚ), (0 : ℚ)), (1, 0, 0), (2, 0, 0)] (3 / 2) false)).filter
          (fun q => decide (jnpGet [(0 : ℤ), 0, 1] q.1 = jnpGet [(0 : ℤ), 0, 1] q.2)))
        ++ List.replicate
            (6 - (truePairs [((0 : ℚ), (0 : ℚ), (0 : ℚ)), (1, 0, 0), (2, 0, 0)].length
              (distMask [((0 : ℚ), (0 : ℚ), (0 : ℚ)), (1, 0, 0), (2, 0, 0)] (3 / 2)
                false)).length)
            ((-1 : ℤ), (-1 : ℤ)) ∧
    ((-1 : ℤ), (-1 : ℤ)) ∈ radius_graph [((0 : ℚ), (0 : ℚ), (0 : ℚ)), (1, 0, 0), (2, 0, 0)]
      (3 / 2) (some [0, 0, 1]) (some 6) false) :=
  ⟨by norm_num [truePairs, distMask, sqdist, List.range_succ],
    C9_padding_survives_batch [((0 : ℚ), (0 : ℚ), (0 : ℚ)), (1, 0, 0), (2, 0, 0)] (3 / 2)
      false [0, 0, 1] 6
      (by norm_num [truePairs, distMask, sqdist, List.range_succ])⟩

/-- Witness for C10 with one in-range and one out-of-range index. -/
theorem C10_oob_rows_dropped_witness :
    ([(0 : ℤ), 5].length = [(1 : ℚ), 2].length) ∧
    (∀ i ∈ [(0 : ℤ), 5], 0 ≤ i) ∧
    ((0 : ℕ) < 4) ∧
    (∃ out : List ℚ,
      index_add [(0 : ℤ), 5] (FeatureInput.plain [(1 : ℚ), 2]) (some 4) false
        = Except.ok (FeatureInput.plain out) ∧
      out.length = 4 ∧
      out.getD 0 0 = groupSum [(0 : ℤ), 5] [(1 : ℚ), 2] ((0 : ℕ) : ℤ) ∧
      out.sum = ((([(0 : ℤ), 5].zip [(1 : ℚ), 2]).filter
          (fun p => decide (p.1 < ((4 : ℕ) : ℤ)))).map Prod.snd).sum) :=
  ⟨by decide, by decide, by decide,
    C10_oob_rows_dropped [0, 5] [(1 : ℚ), 2] 4 0 (by decide) (by decide) (by decide)⟩

end E3nnGraphUtil
